import Mathlib

/-!
Verification of the kitty `config` kitten (`config.py`).

This file gives a shallow embedding of the pure core of the script:
the tri-state part-selection state and its resolution, the shortcut and
action string splitters (embedding the regexes of the source), the
key-centric sort key, the table formatter, the binding-map differ, the
ANSI-stripping of plain mode, and the environment-probing `IssueData`
constructor.  Theorems at the end check the claims of the specification
against these definitions.
-/

/-- The seven report parts, mirroring `CmdArgs.parts`
(`['info', 'config', 'mouse', 'keys', 'colors', 'env', 'actions']`). -/
inductive ReportPart
  | info | config | mouse | keys | colors | env | actions
deriving DecidableEq, Repr

/-- The list `CmdArgs.parts`, in source order. -/
def partsList : List ReportPart :=
  [.info, .config, .mouse, .keys, .colors, .env, .actions]

/-- State of the module-global `cmdArgs` object.  Python's tri-state
`None`/`True`/`False` per-part attributes are `Option Bool`; the field
defaults are those set by `CmdArgs.defaults`.  (`what` is only assigned
in `resolveParts`; it starts empty here.) -/
@[ext] structure CmdArgs where
  diff : Bool := false
  sort : String := ""
  plain : Bool := false
  links : Bool := true
  deleted : Bool := true
  empty : Bool := true
  partFlag : ReportPart → Option Bool := fun _ => none
  what : String := ""

/-- The state produced by `CmdArgs.defaults`. -/
def CmdArgs.defaults : CmdArgs := {}

/-- The list `[getattr(self, part) for part in self.parts]`. -/
def partVals (st : CmdArgs) : List (Option Bool) := partsList.map st.partFlag

/-- One pass of `if getattr(self, attr) is None: setattr(self, attr, b)`
over all parts. -/
def setNones (f : ReportPart → Option Bool) (b : Bool) : ReportPart → Option Bool :=
  fun p => if f p = none then some b else f p

/-- Embedding of `CmdArgs.resolveParts`. -/
def CmdArgs.resolveParts (st : CmdArgs) : CmdArgs :=
  let f :=
    if (partVals st).any (· == some true) then setNones st.partFlag false
    else if (partVals st).any (· == some false) then setNones st.partFlag true
    else fun _ => some true
  { st with
    partFlag := f
    empty := if st.diff then false else st.empty
    links := if st.plain then false else st.links
    what := if st.diff then "DIFF of" else "ALL" }

/-- Embedding of the `debug_config` property setter of `CmdArgs`
(assigning `val` to `self.debug_config`). -/
def CmdArgs.debug_config_set (st : CmdArgs) (val : Option Bool) : CmdArgs :=
  match val with
  | none => st
  | some true =>
      { st with
        diff := true
        sort := ""
        deleted := true
        empty := false
        partFlag := fun p => if p = .actions then some false else some true }
  | some false => CmdArgs.defaults

theorem part_mem_partsList (p : ReportPart) : p ∈ partsList := by
  cases p <;> simp [partsList]

theorem any_partVals_iff (st : CmdArgs) (v : Option Bool) :
    (partVals st).any (· == v) = true ↔ ∃ p, st.partFlag p = v := by
  rw [List.any_eq_true]
  constructor
  · rintro ⟨x, hx, hbeq⟩
    rw [partVals, List.mem_map] at hx
    obtain ⟨p, _, rfl⟩ := hx
    exact ⟨p, by simpa using hbeq⟩
  · rintro ⟨p, h⟩
    exact ⟨st.partFlag p, List.mem_map_of_mem _ (part_mem_partsList p),
      by simp [h]⟩

theorem resolveParts_partFlag (st : CmdArgs) :
    (st.resolveParts).partFlag =
      (if (partVals st).any (· == some true) then setNones st.partFlag false
       else if (partVals st).any (· == some false) then setNones st.partFlag true
       else fun _ => some true) := rfl

/-- C3: if any part is explicitly true, every unset part resolves to
false; otherwise if any part is explicitly false, every unset part
resolves to true; if all parts are unset, every part resolves to true;
diff mode forces the empty flag off and plain mode forces the links flag
off. -/
theorem C3_resolveParts_rule (st : CmdArgs) :
    ((∃ p, st.partFlag p = some true) →
      ∀ p, st.partFlag p = none → (st.resolveParts).partFlag p = some false)
  ∧ ((¬ ∃ p, st.partFlag p = some true) → (∃ p, st.partFlag p = some false) →
      ∀ p, st.partFlag p = none → (st.resolveParts).partFlag p = some true)
  ∧ ((∀ p, st.partFlag p = none) →
      ∀ p, (st.resolveParts).partFlag p = some true)
  ∧ (st.diff = true → (st.resolveParts).empty = false)
  ∧ (st.plain = true → (st.resolveParts).links = false) := by
  refine ⟨?_, ?_, ?_, ?_, ?_⟩
  · intro hT p hp
    have h1 : (partVals st).any (· == some true) = true :=
      (any_partVals_iff st (some true)).2 hT
    rw [resolveParts_partFlag, if_pos h1]
    simp [setNones, hp]
  · intro hT hF p hp
    have h1 : (partVals st).any (· == some true) = false := by
      cases h : (partVals st).any (· == some true) with
      | false => rfl
      | true => exact absurd ((any_partVals_iff st (some true)).1 h) hT
    have h2 : (partVals st).any (· == some false) = true :=
      (any_partVals_iff st (some false)).2 hF
    rw [resolveParts_partFlag, if_neg (by simp [h1]), if_pos h2]
    simp [setNones, hp]
  · intro hall p
    have h1 : (partVals st).any (· == some true) = false := by
      cases h : (partVals st).any (· == some true) with
      | false => rfl
      | true =>
          obtain ⟨q, hq⟩ := (any_partVals_iff st (some true)).1 h
          rw [hall q] at hq; cases hq
    have h2 : (partVals st).any (· == some false) = false := by
      cases h : (partVals st).any (· == some false) with
      | false => rfl
      | true =>
          obtain ⟨q, hq⟩ := (any_partVals_iff st (some false)).1 h
          rw [hall q] at hq; cases hq
    rw [resolveParts_partFlag, if_neg (by simp [h1]), if_neg (by simp [h2])]
  · intro h; simp [CmdArgs.resolveParts, h]
  · intro h; simp [CmdArgs.resolveParts, h]

theorem C3_witness :
    ((CmdArgs.resolveParts
        { partFlag := fun p => if p = .info then some true else none }).partFlag
        .keys = some false)
  ∧ ((CmdArgs.resolveParts
        { partFlag := fun p => if p = .info then some false else none }).partFlag
        .keys = some true)
  ∧ ((CmdArgs.resolveParts { }).partFlag .keys = some true)
  ∧ ((CmdArgs.resolveParts { diff := true }).empty = false)
  ∧ ((CmdArgs.resolveParts { plain := true }).links = false) := by
  refine ⟨?_, ?_, ?_, ?_, ?_⟩
  · exact (C3_resolveParts_rule _).1 ⟨.info, by simp⟩ .keys (by simp)
  · exact (C3_resolveParts_rule _).2.1
      (by rintro ⟨p, hp⟩; revert hp; cases p <;> simp)
      ⟨.info, by simp⟩ .keys (by simp)
  · exact (C3_resolveParts_rule _).2.2.1 (fun p => rfl) .keys
  · exact (C3_resolveParts_rule _).2.2.2.1 rfl
  · exact (C3_resolveParts_rule _).2.2.2.2 rfl

theorem resolveParts_total (st : CmdArgs) (p : ReportPart) :
    ((st.resolveParts).partFlag p).isSome = true := by
  rw [resolveParts_partFlag]
  split
  · cases h : st.partFlag p <;> simp [setNones, h]
  · split
    · cases h : st.partFlag p <;> simp [setNones, h]
    · simp

theorem setNones_eq_self (f : ReportPart → Option Bool) (b : Bool)
    (h : ∀ p, (f p).isSome = true) : setNones f b = f := by
  funext p
  have hp := h p
  cases hf : f p
  · rw [hf] at hp; cases hp
  · simp [setNones, hf]

/-- C7: part resolution is total (no part is left unset) and
idempotent (resolving an already-resolved state changes nothing). -/
theorem C7_resolveParts_total_idem :
    (∀ (st : CmdArgs) (p : ReportPart),
       ((st.resolveParts).partFlag p).isSome = true)
  ∧ (∀ st : CmdArgs, st.resolveParts.resolveParts = st.resolveParts) := by
  refine ⟨resolveParts_total, fun st => ?_⟩
  have htot : ∀ p, ((st.resolveParts).partFlag p).isSome = true :=
    resolveParts_total st
  have hflag : st.resolveParts.resolveParts.partFlag =
      st.resolveParts.partFlag := by
    rw [resolveParts_partFlag]
    by_cases h1 : (partVals st.resolveParts).any (· == some true) = true
    · rw [if_pos h1]; exact setNones_eq_self _ _ htot
    · have h2 : (partVals st.resolveParts).any (· == some false) = true := by
        have hi := htot .info
        cases hv : (st.resolveParts).partFlag .info with
        | none => rw [hv] at hi; cases hi
        | some b =>
          cases b with
          | true =>
              exact absurd
                ((any_partVals_iff st.resolveParts (some true)).2 ⟨.info, hv⟩)
                h1
          | false =>
              exact (any_partVals_iff st.resolveParts (some false)).2 ⟨.info, hv⟩
      rw [if_neg h1, if_pos h2]; exact setNones_eq_self _ _ htot
  have hdiff : st.resolveParts.diff = st.diff := rfl
  have hplain : st.resolveParts.plain = st.plain := rfl
  refine CmdArgs.ext ?_ ?_ ?_ ?_ ?_ ?_ ?_ ?_
  · exact hdiff
  · rfl
  · exact hplain
  · show (if st.resolveParts.plain then false else st.resolveParts.links) =
      st.resolveParts.links
    rw [hplain]
    show (if st.plain then false
          else if st.plain then false else st.links) =
      (if st.plain then false else st.links)
    by_cases hp : st.plain = true <;> simp [hp]
  · rfl
  · show (if st.resolveParts.diff then false else st.resolveParts.empty) =
      st.resolveParts.empty
    rw [hdiff]
    show (if st.diff then false
          else if st.diff then false else st.empty) =
      (if st.diff then false else st.empty)
    by_cases hd : st.diff = true <;> simp [hd]
  · exact hflag
  · show (if st.resolveParts.diff then "DIFF of" else "ALL") =
      (if st.diff then "DIFF of" else "ALL")
    rw [hdiff]

/-- C8: setting the `debug_config` meta-flag to true forces diff mode,
clears the empty-action flag, and sets every part to true except
`actions`, which becomes false. -/
theorem C8_debug_config_true (st : CmdArgs) :
    ((st.debug_config_set (some true)).diff = true)
  ∧ ((st.debug_config_set (some true)).empty = false)
  ∧ ((st.debug_config_set (some true)).partFlag .info = some true)
  ∧ ((st.debug_config_set (some true)).partFlag .config = some true)
  ∧ ((st.debug_config_set (some true)).partFlag .mouse = some true)
  ∧ ((st.debug_config_set (some true)).partFlag .keys = some true)
  ∧ ((st.debug_config_set (some true)).partFlag .colors = some true)
  ∧ ((st.debug_config_set (some true)).partFlag .env = some true)
  ∧ ((st.debug_config_set (some true)).partFlag .actions = some false) := by
  simp [CmdArgs.debug_config_set]

/-- Characters admitted by `[^ +]` in `shortcutRe`. -/
def isModChar (c : Char) : Bool := c != ' ' && c != '+'

/-- Length of the longest prefix of `cs` matching `(([^ +]+)\+)*`, the
greedy modifier-prefix group of `shortcutRe = r'^((([^ +]+)\+)*)(.*)$'`.
Structural recursion on an explicit fuel (bounded by `cs.length`, which
the scan never exhausts since every accepted block has length at least
two) stands in for the regex engine's loop. -/
def modLenAux : Nat → List Char → Nat
  | 0, _ => 0
  | fuel+1, cs =>
    match cs.drop (cs.takeWhile isModChar).length with
    | '+' :: rest =>
        if (cs.takeWhile isModChar).isEmpty then 0
        else (cs.takeWhile isModChar).length + 1 + modLenAux fuel rest
    | _ => 0

def modLen (cs : List Char) : Nat := modLenAux cs.length cs

/-- Embedding of `shortcutSplit`: `re.fullmatch(shortcutRe, txt)` and
`(m.group(1), m.group(4))` on success, `('', txt)` when the match fails.
The match fails exactly when the `(.*)` tail group would have to span a
newline (`.` does not match `'\n'`); backtracking the greedy modifier
group only ever grows that tail, so failure at the greedy split is
failure outright. -/
def shortcutSplit (txt : String) : String × String :=
  let cs := txt.data
  let p := modLen cs
  if (cs.drop p).contains '\n' then ("", txt)
  else (String.mk (cs.take p), String.mk (cs.drop p))

/-- Embedding of `actionSplit`: `re.fullmatch(r'([^ ]+)( .*)', txt)` and
`(m.group(1), m.group(2))` on success, `(txt, '')` on failure.  The
match succeeds iff `txt` has a space, the part before the first space is
nonempty, and nothing after that space is a newline. -/
def actionSplit (txt : String) : String × String :=
  let cs := txt.data
  match cs.takeWhile (· != ' '), cs.dropWhile (· != ' ') with
  | _ :: _, ' ' :: rest =>
      if rest.contains '\n' then (txt, "")
      else (String.mk (cs.takeWhile (· != ' ')),
            String.mk (cs.dropWhile (· != ' ')))
  | _, _ => (txt, "")

/-- Embedding of `shortcutSortKey`. -/
def shortcutSortKey (txt : String) : String :=
  let ms := shortcutSplit txt
  ms.2 ++ " zzz " ++ ms.1

theorem string_mk_append (a b : List Char) :
    String.mk a ++ String.mk b = String.mk (a ++ b) := rfl

/-- C10: both splitters are lossless — prefix and suffix concatenate
back to the input string. -/
theorem C10_split_lossless (s : String) :
    ((shortcutSplit s).1 ++ (shortcutSplit s).2 = s)
  ∧ ((actionSplit s).1 ++ (actionSplit s).2 = s) := by
  constructor
  · rw [shortcutSplit]
    split
    · show "" ++ s = s
      simp
    · show String.mk (s.data.take (modLen s.data)) ++
        String.mk (s.data.drop (modLen s.data)) = s
      rw [string_mk_append, List.take_append_drop]
  · rw [actionSplit]
    split
    · split
      · show s ++ "" = s
        simp
      · rw [string_mk_append, List.takeWhile_append_dropWhile]
    · show s ++ "" = s
      simp

/-- Lexicographic strict comparison of character lists by code point,
the order Python's `sorted` uses on strings. -/
def lexLt : List Char → List Char → Bool
  | [], [] => false
  | [], _ :: _ => true
  | _ :: _, [] => false
  | a :: as, b :: bs => decide (a < b) || (a == b && lexLt as bs)

/-- Python's `<=` on strings, as non-strict companion of `lexLt`. -/
def lexLe (x y : List Char) : Bool := !lexLt y x

/-- The bare key of a trigger: the part left after stripping the
modifier prefix, i.e. the second component of `shortcutSplit`. -/
def bareKey (t : String) : String := (shortcutSplit t).2

theorem lexLt_irrefl (x : List Char) : lexLt x x = false := by
  induction x with
  | nil => rfl
  | cons a as ih => simp [lexLt, ih]

theorem lexLt_conn (x : List Char) :
    ∀ y, lexLt x y = false → lexLt y x = false → x = y := by
  induction x with
  | nil =>
    intro y h1 _
    cases y with
    | nil => rfl
    | cons b bs => simp [lexLt] at h1
  | cons a as ih =>
    intro y h1 h2
    cases y with
    | nil => simp [lexLt] at h2
    | cons b bs =>
      by_cases hab : a = b
      · subst hab
        have h1' : lexLt as bs = false := by
          cases h : lexLt as bs
          · rfl
          · rw [lexLt, h] at h1; simp at h1
        have h2' : lexLt bs as = false := by
          cases h : lexLt bs as
          · rfl
          · rw [lexLt, h] at h2; simp at h2
        rw [ih bs h1' h2']
      · exfalso
        have hnl1 : ¬ a < b := by
          intro hl; rw [lexLt] at h1; simp [hl] at h1
        have hnl2 : ¬ b < a := by
          intro hl; rw [lexLt] at h2; simp [hl] at h2
        exact hab (le_antisymm (not_lt.1 hnl2) (not_lt.1 hnl1))

/-- With space-free prefixes `u ≠ v`, the comparison of
`u ++ ' ' :: m` against `v ++ ' ' :: m'` does not depend on the parts
after the separating space. -/
theorem lexLt_sep_uniform (u : List Char) :
    ∀ (v m m' r r' : List Char), ' ' ∉ u → ' ' ∉ v → u ≠ v →
    lexLt (u ++ ' ' :: m) (v ++ ' ' :: m') =
      lexLt (u ++ ' ' :: r) (v ++ ' ' :: r') := by
  induction u with
  | nil =>
    intro v m m' r r' _ hv hne
    cases v with
    | nil => exact absurd rfl hne
    | cons b bs =>
      have hb : (' ' == b) = false := by
        refine beq_eq_false_iff_ne.2 fun h => hv ?_
        rw [← h]; exact List.mem_cons_self ' ' bs
      show lexLt (' ' :: m) (b :: (bs ++ ' ' :: m')) =
        lexLt (' ' :: r) (b :: (bs ++ ' ' :: r'))
      rw [lexLt, lexLt, hb]
      simp
  | cons a as ih =>
    intro v m m' r r' hu hv hne
    cases v with
    | nil =>
      have ha : (a == ' ') = false := by
        refine beq_eq_false_iff_ne.2 fun h => hu ?_
        rw [← h]; exact List.mem_cons_self a as
      show lexLt (a :: (as ++ ' ' :: m)) (' ' :: m') =
        lexLt (a :: (as ++ ' ' :: r)) (' ' :: r')
      rw [lexLt, lexLt, ha]
      simp
    | cons b bs =>
      show lexLt (a :: (as ++ ' ' :: m)) (b :: (bs ++ ' ' :: m')) =
        lexLt (a :: (as ++ ' ' :: r)) (b :: (bs ++ ' ' :: r'))
      by_cases hab : a = b
      · subst hab
        have hne' : as ≠ bs := fun h => hne (by rw [h])
        have hu' : ' ' ∉ as := fun h => hu (List.mem_cons_of_mem a h)
        have hv' : ' ' ∉ bs := fun h => hv (List.mem_cons_of_mem a h)
        rw [lexLt, lexLt, ih bs m m' r r' hu' hv' hne']
      · have hab' : (a == b) = false := beq_eq_false_iff_ne.2 hab
        rw [lexLt, lexLt, hab']
        simp

/-- With space-free prefixes, equality of `u ++ ' ' :: m` and
`v ++ ' ' :: m'` forces `u = v`. -/
theorem sep_inj (u : List Char) :
    ∀ (v m m' : List Char), ' ' ∉ u → ' ' ∉ v →
    u ++ ' ' :: m = v ++ ' ' :: m' → u = v := by
  induction u with
  | nil =>
    intro v m m' _ hv h
    cases v with
    | nil => rfl
    | cons b bs =>
      exfalso
      injection h with h1 _
      exact hv (h1 ▸ List.mem_cons_self b bs)
  | cons a as ih =>
    intro v m m' hu hv h
    cases v with
    | nil =>
      exfalso
      injection h with h1 _
      exact hu (h1 ▸ List.mem_cons_self a as)
    | cons b bs =>
      injection h with h1 h2
      have hu' : ' ' ∉ as := fun hx => hu (List.mem_cons_of_mem a hx)
      have hv' : ' ' ∉ bs := fun hx => hv (List.mem_cons_of_mem b hx)
      rw [h1, ih bs m m' hu' hv' h2]

/-- A string with a space-free prefix sandwiched (in the sort order)
between two strings carrying the same space-free prefix must carry that
prefix itself. -/
theorem sep_sandwich (k kj m1 mj m2 : List Char)
    (hk : ' ' ∉ k) (hkj : ' ' ∉ kj)
    (h1 : lexLe (k ++ ' ' :: m1) (kj ++ ' ' :: mj) = true)
    (h2 : lexLe (kj ++ ' ' :: mj) (k ++ ' ' :: m2) = true) : kj = k := by
  by_contra hne
  have e1 : lexLt (kj ++ ' ' :: mj) (k ++ ' ' :: m1) = false := by
    simpa [lexLe] using h1
  have e2 : lexLt (k ++ ' ' :: m2) (kj ++ ' ' :: mj) = false := by
    simpa [lexLe] using h2
  have e3 : lexLt (kj ++ ' ' :: mj) (k ++ ' ' :: m2) = false := by
    rw [lexLt_sep_uniform kj k mj m2 mj m1 hkj hk hne]
    exact e1
  have heq := lexLt_conn _ _ e2 e3
  exact hne (sep_inj kj k mj m2 hkj hk heq.symm)

theorem sortKey_data (t : String) :
    (shortcutSortKey t).data =
      (bareKey t).data ++
        ' ' :: ('z' :: 'z' :: 'z' :: ' ' :: (shortcutSplit t).1.data) := by
  show ((shortcutSplit t).2 ++ " zzz " ++ (shortcutSplit t).1).data = _
  rw [String.data_append, String.data_append, List.append_assoc]
  rfl

theorem lexLe_refl (x : List Char) : lexLe x x = true := by
  simp [lexLe, lexLt_irrefl]

/-- C5 (amended): over collections in which no bare key contains a
space character, sorting by the key-centric sort key places all
triggers sharing a bare key in one contiguous block. -/
theorem C5_sortKey_groups_amended (l : List String)
    (hsorted : l.Pairwise fun a b =>
      lexLe (shortcutSortKey a).data (shortcutSortKey b).data = true)
    (hnosp : ∀ t ∈ l, ' ' ∉ (bareKey t).data) :
    ∀ (i j k : Nat) (hi : i < l.length) (hj : j < l.length)
      (hk : k < l.length), i ≤ j → j ≤ k →
      bareKey (l.get ⟨i, hi⟩) = bareKey (l.get ⟨k, hk⟩) →
      bareKey (l.get ⟨j, hj⟩) = bareKey (l.get ⟨i, hi⟩) := by
  intro i j k hi hj hk hij hjk hik
  have hpw := List.pairwise_iff_get.1 hsorted
  have le1 : lexLe (shortcutSortKey (l.get ⟨i, hi⟩)).data
      (shortcutSortKey (l.get ⟨j, hj⟩)).data = true := by
    rcases lt_or_eq_of_le hij with h | h
    · exact hpw ⟨i, hi⟩ ⟨j, hj⟩ h
    · cases h; exact lexLe_refl _
  have le2 : lexLe (shortcutSortKey (l.get ⟨j, hj⟩)).data
      (shortcutSortKey (l.get ⟨k, hk⟩)).data = true := by
    rcases lt_or_eq_of_le hjk with h | h
    · exact hpw ⟨j, hj⟩ ⟨k, hk⟩ h
    · cases h; exact lexLe_refl _
  rw [sortKey_data, sortKey_data] at le1 le2
  rw [← hik] at le2
  have hnsi : ' ' ∉ (bareKey (l.get ⟨i, hi⟩)).data :=
    hnosp _ (List.get_mem l _ _)
  have hnsj : ' ' ∉ (bareKey (l.get ⟨j, hj⟩)).data :=
    hnosp _ (List.get_mem l _ _)
  exact String.ext (sep_sandwich _ _ _ _ _ hnsi hnsj le1 le2)

theorem C5_amended_witness :
    bareKey ((["a", "ctrl+a"] : List String).get ⟨1, by decide⟩) =
      bareKey ((["a", "ctrl+a"] : List String).get ⟨0, by decide⟩) := by
  exact C5_sortKey_groups_amended (["a", "ctrl+a"]) (by decide) (by decide)
    0 1 1 (by decide) (by decide) (by decide) (by decide) (by decide)
    (by decide)

/-- C5 counterexample: the list `["a", "a zzz", "~+a"]` is sorted by the
key-centric sort key, its first and third triggers share the bare key
`"a"`, yet the middle trigger has a different bare key — so bindings
sharing a bare key are not contiguous for arbitrary trigger strings. -/
theorem C5_counterexample :
    ((["a", "a zzz", "~+a"] : List String).Pairwise fun a b =>
      lexLe (shortcutSortKey a).data (shortcutSortKey b).data = true)
  ∧ bareKey "a" = bareKey "~+a"
  ∧ bareKey "a zzz" ≠ bareKey "a" := by
  refine ⟨by decide, by decide, by decide⟩

/-- Python `k in d` for a dict given as an association list. -/
def dmem (d : List (String × String)) (k : String) : Bool :=
  (d.lookup k).isSome

/-- The key set `set(d)` of a dict, as its list of keys. -/
def dkeys (d : List (String × String)) : List String := d.map Prod.fst

/-- The set `added = set(ef) - set(ei)` computed by `compare_maps`. -/
def added_set (ef ei : List (String × String)) (k : String) : Bool :=
  dmem ef k && !dmem ei k

/-- The set `removed = set(ei) - set(ef)` computed by `compare_maps`. -/
def removed_set (ef ei : List (String × String)) (k : String) : Bool :=
  dmem ei k && !dmem ef k

/-- The set `changed = {k for k in set(ef) & set(ei) if ef[k] != ei[k]}`
computed by `compare_maps`. -/
def changed_set (ef ei : List (String × String)) (k : String) : Bool :=
  dmem ef k && dmem ei k && (ef.lookup k != ei.lookup k)

/-- The merged dict `dict(list(ei.items()) + list(ef.items()))` that
`compare_maps` passes to `print_mapping_changes`: keys of `ei` in order
with values overridden by `ef` where present, then the keys only in
`ef`, as Python dict construction from the concatenated item lists. -/
def mergeDict (ei ef : List (String × String)) : List (String × String) :=
  ei.map (fun p => (p.1, (ef.lookup p.1).getD p.2)) ++
    ef.filter (fun p => !dmem ei p.1)

/-- Triggers that `print_mapping_changes` shows with a blank flag: keys
of the merged dict that are neither added, changed nor removed. -/
def unchanged_keys (ef ei : List (String × String)) : List String :=
  (dkeys (mergeDict ei ef)).filter
    (fun k => !added_set ef ei k && !removed_set ef ei k &&
      !changed_set ef ei k)

theorem dmem_iff (d : List (String × String)) (k : String) :
    dmem d k = true ↔ k ∈ dkeys d := by
  induction d with
  | nil => simp [dmem, dkeys, List.lookup]
  | cons p t ih =>
    obtain ⟨a, b⟩ := p
    by_cases h : k = a
    · subst h; simp [dmem, dkeys, List.lookup]
    · have hba : (k == a) = false := beq_eq_false_iff_ne.2 h
      rw [dmem, dkeys] at ih ⊢
      simp only [List.lookup, hba, List.map_cons, List.mem_cons]
      rw [ih]
      constructor
      · exact Or.inr
      · rintro (hh | hh)
        · exact absurd hh h
        · exact hh

theorem mem_dkeys_mergeDict (ei ef : List (String × String)) (k : String) :
    k ∈ dkeys (mergeDict ei ef) ↔ k ∈ dkeys ei ∨ k ∈ dkeys ef := by
  rw [mergeDict, dkeys, List.map_append, List.mem_append]
  constructor
  · rintro (h | h)
    · left
      rw [List.map_map] at h
      obtain ⟨p, hp, hk⟩ := List.mem_map.1 h
      exact List.mem_map.2 ⟨p, hp, hk⟩
    · right
      obtain ⟨p, hp, hk⟩ := List.mem_map.1 h
      exact List.mem_map.2 ⟨p, (List.mem_filter.1 hp).1, hk⟩
  · intro h
    by_cases hei : k ∈ dkeys ei
    · left
      obtain ⟨p, hp, hk⟩ := List.mem_map.1 hei
      rw [List.map_map]
      exact List.mem_map.2 ⟨p, hp, hk⟩
    · right
      rcases h with h | h
      · exact absurd h hei
      · obtain ⟨p, hp, hk⟩ := List.mem_map.1 h
        refine List.mem_map.2 ⟨p, List.mem_filter.2 ⟨hp, ?_⟩, hk⟩
        have : dmem ei p.1 = false := by
          cases hd : dmem ei p.1
          · rfl
          · exact absurd (hk ▸ (dmem_iff ei p.1).1 hd) hei
        simp [this]

theorem mem_unchanged_iff (ef ei : List (String × String)) (k : String) :
    k ∈ unchanged_keys ef ei ↔
      (k ∈ dkeys ei ∨ k ∈ dkeys ef) ∧ added_set ef ei k = false ∧
      removed_set ef ei k = false ∧ changed_set ef ei k = false := by
  rw [unchanged_keys, List.mem_filter, mem_dkeys_mergeDict]
  simp [Bool.and_eq_true, Bool.not_eq_true', and_assoc]

/-- C2: the differ's added/removed/changed sets are the claimed set
algebra (`C\D`, `D\C`, and the common keys with differing actions), the
blank-flagged triggers are the common keys with equal actions, and the
four classes are pairwise disjoint with union `C ∪ D`. -/
theorem C2_compare_maps_partition (ef ei : List (String × String))
    (k : String) :
    (added_set ef ei k = true ↔ k ∈ dkeys ef ∧ ¬ k ∈ dkeys ei)
  ∧ (removed_set ef ei k = true ↔ k ∈ dkeys ei ∧ ¬ k ∈ dkeys ef)
  ∧ (changed_set ef ei k = true ↔
      (k ∈ dkeys ef ∧ k ∈ dkeys ei) ∧ ef.lookup k ≠ ei.lookup k)
  ∧ (k ∈ unchanged_keys ef ei ↔
      (k ∈ dkeys ef ∧ k ∈ dkeys ei) ∧ ef.lookup k = ei.lookup k)
  ∧ (¬ (added_set ef ei k = true ∧ removed_set ef ei k = true))
  ∧ (¬ (added_set ef ei k = true ∧ changed_set ef ei k = true))
  ∧ (¬ (added_set ef ei k = true ∧ k ∈ unchanged_keys ef ei))
  ∧ (¬ (removed_set ef ei k = true ∧ changed_set ef ei k = true))
  ∧ (¬ (removed_set ef ei k = true ∧ k ∈ unchanged_keys ef ei))
  ∧ (¬ (changed_set ef ei k = true ∧ k ∈ unchanged_keys ef ei))
  ∧ ((k ∈ dkeys ef ∨ k ∈ dkeys ei) ↔
      (added_set ef ei k = true ∨ removed_set ef ei k = true ∨
       changed_set ef ei k = true ∨ k ∈ unchanged_keys ef ei)) := by
  rw [mem_unchanged_iff]
  simp only [← dmem_iff, added_set, removed_set, changed_set]
  cases hf : dmem ef k <;> cases hi : dmem ei k <;>
    cases hl : ef.lookup k == ei.lookup k <;>
    simp_all [bne, beq_iff_eq, Bool.not_eq_true]

/-- Fuel-driven core of the plain-mode filter
`re.sub(r'\x1b[^m]*m', '', text)`: at an escape character the regex
consumes everything through the first following `'m'` when one exists,
otherwise the character stays and scanning resumes after it.  The fuel
(`l.length` at the top call) is never exhausted, since every step
consumes at least one character of the list. -/
def stripAnsiAux : Nat → List Char → List Char
  | 0, _ => []
  | fuel+1, l =>
    match l with
    | [] => []
    | c :: rest =>
      if c = '\x1b' then
        match rest.dropWhile (· != 'm') with
        | _ :: post => stripAnsiAux fuel post
        | [] => c :: stripAnsiAux fuel rest
      else c :: stripAnsiAux fuel rest

def stripAnsiList (l : List Char) : List Char := stripAnsiAux l.length l

/-- The plain-mode transformation `re.sub(r'\x1b[^m]*m', '', text)`
applied by the last line of `debug_config`. -/
def stripAnsi (s : String) : String := String.mk (stripAnsiList s.data)

theorem stripAnsiAux_fuel (f1 : Nat) :
    ∀ (f2 : Nat) (l : List Char), l.length ≤ f1 → l.length ≤ f2 →
    stripAnsiAux f1 l = stripAnsiAux f2 l := by
  induction f1 with
  | zero =>
    intro f2 l h1 _
    have hl : l = [] := List.eq_nil_of_length_eq_zero (Nat.le_zero.1 h1)
    subst hl
    cases f2 <;> rfl
  | succ f ih =>
    intro f2 l h1 h2
    cases l with
    | nil => cases f2 <;> rfl
    | cons c rest =>
      cases f2 with
      | zero => exact absurd h2 (by simp)
      | succ g =>
        have hr1 : rest.length ≤ f := by simpa using h1
        have hr2 : rest.length ≤ g := by simpa using h2
        show stripAnsiAux (f+1) (c :: rest) = stripAnsiAux (g+1) (c :: rest)
        simp only [stripAnsiAux]
        by_cases hc : c = '\x1b'
        · rw [if_pos hc, if_pos hc]
          cases hd : rest.dropWhile (· != 'm') with
          | nil => rw [ih g rest hr1 hr2]
          | cons x post =>
            have hdl := (List.dropWhile_suffix (· != 'm') (l := rest)).length_le
            rw [hd] at hdl
            have hpl : post.length ≤ rest.length := by
              simp at hdl; omega
            exact ih g post (le_trans hpl hr1) (le_trans hpl hr2)
        · rw [if_neg hc, if_neg hc, ih g rest hr1 hr2]

theorem stripAnsiList_cons_of_ne (c : Char) (l : List Char)
    (hc : c ≠ '\x1b') : stripAnsiList (c :: l) = c :: stripAnsiList l := by
  show stripAnsiAux (l.length + 1) (c :: l) = c :: stripAnsiAux l.length l
  simp only [stripAnsiAux]
  rw [if_neg hc]

theorem stripAnsiList_replicate_space (n : Nat) (x : List Char) :
    stripAnsiList (List.replicate n ' ' ++ x) =
      List.replicate n ' ' ++ stripAnsiList x := by
  induction n with
  | zero => simp
  | succ n ih =>
    rw [List.replicate_succ, List.cons_append,
      stripAnsiList_cons_of_ne _ _ (by decide), ih, ← List.cons_append,
      ← List.replicate_succ]

/-- The identity justification `nojust` of the source. -/
def nojust (_ : Nat) (s : String) : String := s

/-- The identity text transform `nofmt` of the source. -/
def nofmt (s : String) : String := s

/-- The per-column format spec `TabFmt`, with the source's defaults. -/
structure TabFmt where
  indent : Nat := 0
  justFn : Nat → String → String := nojust
  fmtFn : String → String := nofmt

/-- Python `' ' * n` (for a non-negative count; the source's negative
counts arise only through `n - len(s)`, which `Nat` subtraction renders
as zero exactly as Python renders an empty string). -/
def spaces (n : Nat) : String := String.mk (List.replicate n ' ')

/-- The truncating transpose `zip(*a)` used by `formatTable`: tuples of
the rows' first elements until some row runs out.  Fuel-driven
structural recursion (the fuel, the first row's length, bounds the
number of tuples `zip` can produce). -/
def pyZipStarAux : Nat → List (List String) → List (List String)
  | 0, _ => []
  | fuel+1, a =>
    if a.any List.isEmpty then []
    else (a.map (fun r => r.headD "")) :: pyZipStarAux fuel (a.map List.tail)

def pyZipStar (a : List (List String)) : List (List String) :=
  match a with
  | [] => []
  | r :: _ => pyZipStarAux r.length a

/-- Python `max(map(len, aa))` over a (nonempty) column. -/
def maxLen (col : List String) : Nat :=
  match col with
  | [] => 0
  | h :: t => t.foldl (fun acc s => max acc s.length) h.length

/-- The per-column widths `field_lens = [max(map(len, aa)) for aa in
zip(*a)]` of `formatTable`. -/
def fieldLens (a : List (List String)) : List Nat :=
  (pyZipStar a).map maxLen

/-- One column of one row as `formatTable` renders it:
`(' '*fmt1.indent) + fmt1.fmtFn(fmt1.justFn(width, val))`. -/
def formatCell (val : String) (f : TabFmt) (width : Nat) : String :=
  spaces f.indent ++ f.fmtFn (f.justFn width val)

/-- Embedding of `formatTable` (namespaced `Config.` to avoid clashing
with an unrelated library declaration of the same name). -/
def Config.formatTable (a : List (List String)) (fmt : List TabFmt) :
    List (List String × String) :=
  if a.length = 0 then []
  else
    a.map fun row =>
      (row, String.join ((row.zip (fmt.zip (fieldLens a))).map
        fun x => formatCell x.1 x.2.1 x.2.2))

theorem pyZipStarAux_rect (m : Nat) :
    ∀ (a : List (List String)), a ≠ [] → (∀ r ∈ a, r.length = m) →
    pyZipStarAux m a =
      (List.range m).map (fun j => a.map (fun r => r.getD j "")) := by
  induction m with
  | zero => intro a _ _; rfl
  | succ m ih =>
    intro a ha hrect
    have hne : a.any List.isEmpty = false := by
      rw [List.any_eq_false]
      intro r hr
      have hl := hrect r hr
      cases r with
      | nil => simp at hl
      | cons x t => simp
    show pyZipStarAux (m+1) a = _
    simp only [pyZipStarAux]
    rw [if_neg (by simp [hne])]
    have hta : a.map List.tail ≠ [] := by
      cases a with
      | nil => exact absurd rfl ha
      | cons r rs => simp
    have htrect : ∀ r ∈ a.map List.tail, r.length = m := by
      intro r hr
      obtain ⟨q, hq, rfl⟩ := List.mem_map.1 hr
      have := hrect q hq
      cases q with
      | nil => simp at this
      | cons x t => simpa using this
    rw [ih (a.map List.tail) hta htrect]
    rw [List.range_succ_eq_map, List.map_cons]
    congr 1
    · refine List.map_congr_left fun r hr => ?_
      have := hrect r hr
      cases r with
      | nil => simp at this
      | cons x t => rfl
    · rw [List.map_map]
      refine List.map_congr_left fun j _ => ?_
      rw [List.map_map]
      refine List.map_congr_left fun r hr => ?_
      have := hrect r hr
      cases r with
      | nil => simp at this
      | cons x t => rfl

theorem getD_map_range (m j : Nat) (hj : j < m) (g : Nat → Nat) :
    (((List.range m).map g).getD j 0) = g j := by
  rw [List.getD_eq_getElem?_getD, List.getElem?_map, List.getElem?_range hj]
  rfl

/-- C4: the table formatter yields an empty result on an empty row
list; on non-empty rectangular input, the width it uses for a column is
the maximum raw (pre-styling) string length of that column across all
rows; and the ANSI-stripped content of a formatted cell has the same
length whether the column's style transform is the identity or any
transform invisible to `stripAnsi` on the justified value — styling
cannot influence the computed, unstyled column layout. -/
theorem C4_formatTable_widths :
    (∀ fmt : List TabFmt, Config.formatTable [] fmt = [])
  ∧ (∀ (a : List (List String)) (m j : Nat), a ≠ [] →
      (∀ r ∈ a, r.length = m) → j < m →
      (fieldLens a).getD j 0 = maxLen (a.map (fun r => r.getD j "")))
  ∧ (∀ (f fid : TabFmt) (w : Nat) (v : String),
      fid.indent = f.indent → fid.justFn = f.justFn →
      (∀ s, fid.fmtFn s = s) →
      stripAnsi (f.fmtFn (f.justFn w v)) = stripAnsi (f.justFn w v) →
      (stripAnsi (formatCell v f w)).length =
        (stripAnsi (formatCell v fid w)).length) := by
  refine ⟨fun fmt => rfl, ?_, ?_⟩
  · intro a m j ha hrect hj
    obtain ⟨r, rs, rfl⟩ := List.exists_cons_of_ne_nil ha
    have hrm : r.length = m := hrect r (List.mem_cons_self r rs)
    rw [fieldLens]
    show ((pyZipStarAux r.length (r :: rs)).map maxLen).getD j 0 = _
    rw [hrm, pyZipStarAux_rect m (r :: rs) (by simp) hrect, List.map_map]
    exact getD_map_range m j hj _
  · intro f fid w v hind hjust hid hstrip
    have hdata : ∀ g : TabFmt, (formatCell v g w).data =
        List.replicate g.indent ' ' ++ (g.fmtFn (g.justFn w v)).data :=
      fun g => rfl
    have key : (stripAnsi (formatCell v f w)).data =
        List.replicate f.indent ' ' ++
          (stripAnsi (f.justFn w v)).data := by
      show stripAnsiList (formatCell v f w).data = _
      rw [hdata f, stripAnsiList_replicate_space]
      have h2 : stripAnsiList (f.fmtFn (f.justFn w v)).data =
          (stripAnsi (f.justFn w v)).data := congrArg String.data hstrip
      rw [h2]
    have keyid : (stripAnsi (formatCell v fid w)).data =
        List.replicate f.indent ' ' ++
          (stripAnsi (f.justFn w v)).data := by
      show stripAnsiList (formatCell v fid w).data = _
      rw [hdata fid, stripAnsiList_replicate_space, hid, hind, hjust]
      rfl
    have : (stripAnsi (formatCell v f w)).data =
        (stripAnsi (formatCell v fid w)).data := by rw [key, keyid]
    show (stripAnsi (formatCell v f w)).data.length =
      (stripAnsi (formatCell v fid w)).data.length
    rw [this]

theorem C4_formatTable_widths_witness :
    (Config.formatTable [] [] = [])
  ∧ ((fieldLens [["ab"], ["c"]]).getD 0 0 =
      maxLen ([["ab"], ["c"]].map (fun r => r.getD 0 "")))
  ∧ ((stripAnsi (formatCell "ab"
        { fmtFn := fun s => "\x1b[31m" ++ s ++ "\x1b[39m" } 5)).length =
      (stripAnsi (formatCell "ab" { } 5)).length) :=
  ⟨C4_formatTable_widths.1 [],
   C4_formatTable_widths.2.1 [["ab"], ["c"]] 1 0 (by decide) (by decide)
     (by decide),
   C4_formatTable_widths.2.2 _ { } 5 "ab" rfl rfl (fun s => rfl)
     (by decide)⟩

/-- Every escape character in the list is followed (strictly later) by
an `'m'` — the shape of a buffer all of whose escapes are SGR styling
sequences, as produced by the styling primitives when hyperlinks are
disabled. -/
def escOk : List Char → Bool
  | [] => true
  | c :: r => (c != '\x1b' || r.contains 'm') && escOk r

theorem escOk_append_right (l1 : List Char) :
    ∀ l2, escOk (l1 ++ l2) = true → escOk l2 = true := by
  induction l1 with
  | nil => intro l2 h; exact h
  | cons c t ih =>
    intro l2 h
    rw [List.cons_append, escOk, Bool.and_eq_true] at h
    exact ih l2 h.2

theorem escOk_no_esc_aux (fuel : Nat) :
    ∀ l : List Char, l.length ≤ fuel → escOk l = true →
    '\x1b' ∉ stripAnsiAux fuel l := by
  induction fuel with
  | zero => intro l _ _; simp [stripAnsiAux]
  | succ f ih =>
    intro l hlen hok
    cases l with
    | nil => simp [stripAnsiAux]
    | cons c rest =>
      rw [escOk, Bool.and_eq_true] at hok
      obtain ⟨hc1, hrest⟩ := hok
      have hr : rest.length ≤ f := by simpa using hlen
      show '\x1b' ∉ stripAnsiAux (f+1) (c :: rest)
      simp only [stripAnsiAux]
      by_cases hc : c = '\x1b'
      · rw [if_pos hc]
        have hm : 'm' ∈ rest := by
          rw [hc] at hc1; simpa using hc1
        cases hd : rest.dropWhile (· != 'm') with
        | nil =>
          exfalso
          have hall := List.dropWhile_eq_nil_iff.1 hd
          have := hall 'm' hm
          simp at this
        | cons x post =>
          have hsplit : rest.takeWhile (· != 'm') ++ (x :: post) = rest := by
            rw [← hd, List.takeWhile_append_dropWhile]
          have hokd : escOk (x :: post) = true := by
            apply escOk_append_right (rest.takeWhile (· != 'm'))
            rw [hsplit]; exact hrest
          have hokpost : escOk post = true := by
            rw [escOk, Bool.and_eq_true] at hokd; exact hokd.2
          have hpl : post.length ≤ f := by
            have hs := (List.dropWhile_suffix (· != 'm') (l := rest)).length_le
            rw [hd] at hs; simp at hs; omega
          exact ih post hpl hokpost
      · rw [if_neg hc]
        intro hmem
        rcases List.mem_cons.1 hmem with h | h
        · exact hc h.symm
        · exact ih rest hr hrest h

/-- Embedding of `link`.  The Python global `link_id` counter only
varies the `id=` field of the emitted escape; it is passed here
explicitly as `lid`. -/
def link (links : Bool) (lid : Nat) (url txt : String) : String :=
  if links then
    "\x1b]8;id=" ++ toString lid ++ ";" ++ url ++ "\x1b\\" ++ txt ++
      "\x1b]8;;\x1b\\"
  else txt

/-- Embedding of `nolink`. -/
def nolink (links : Bool) : String :=
  if links then "\x1b]8;;\x1b\\" else ""

/-- Embedding of `eolnl`. -/
def eolnl (links : Bool) : String :=
  if links then "\n\x1b]8;;\x1b\\" else "\n"

/-- Embedding of `linkAction` (the documented URL form). -/
def linkAction (links : Bool) (lid : Nat) (txt : String) : String :=
  link links lid
    ("https://sw.kovidgoyal.net/kitty/actions/#action-" ++ txt) txt

/-- The return statement of `debug_config`: the accumulated buffer,
filtered through `re.sub(r'\x1b[^m]*m', '', ...)` when plain mode is
active. -/
def debug_config_return (plain : Bool) (buffer : String) : String :=
  if plain then stripAnsi buffer else buffer

/-- C6: in plain mode the resolver disables hyperlinks, so `link`,
`nolink` and `eolnl` emit no escapes of their own, and the final
plain-mode filter removes every escape character from a buffer whose
escapes are all `m`-terminated SGR styling sequences — the returned
report contains no ANSI escape introducer. -/
theorem C6_plain_no_escape :
    (∀ st : CmdArgs, st.plain = true → (st.resolveParts).links = false)
  ∧ (∀ (lid : Nat) (url txt : String), link false lid url txt = txt)
  ∧ (nolink false = "" ∧ eolnl false = "\n")
  ∧ (∀ s : String, escOk s.data = true →
      '\x1b' ∉ (debug_config_return true s).data) := by
  refine ⟨?_, fun lid url txt => rfl, ⟨rfl, rfl⟩, ?_⟩
  · intro st h; simp [CmdArgs.resolveParts, h]
  · intro s hok
    show '\x1b' ∉ (stripAnsi s).data
    exact escOk_no_esc_aux s.data.length s.data (le_refl _) hok

theorem C6_plain_no_escape_witness :
    ((CmdArgs.resolveParts { plain := true }).links = false)
  ∧ ('\x1b' ∉ (debug_config_return true "a\x1b[31mb\x1b[0mc").data) :=
  ⟨C6_plain_no_escape.1 _ rfl, C6_plain_no_escape.2.2.2 _ (by decide)⟩

/-- Embedding of `formatAction`: link-style the action name, keep the
argument text, pad with `' '*(n-len(s))` (empty when the difference is
negative, exactly as `Nat` subtraction gives zero). -/
def formatAction (links : Bool) (lid : Nat) (n : Nat) (s : String) :
    String :=
  let aa := actionSplit s
  linkAction links lid aa.1 ++ aa.2 ++ spaces (n - s.length)

/-- Python's tuple `<=` on the `(sort key, trigger)` pairs sorted by
`print_mapping_changes`. -/
def pairLe (x y : String × String) : Bool :=
  lexLt x.1.data y.1.data || (x.1 == y.1 && lexLe x.2.data y.2.data)

def insertSorted (x : String × String) :
    List (String × String) → List (String × String)
  | [] => [x]
  | y :: ys => if pairLe y x then y :: insertSorted x ys else x :: y :: ys

/-- `sorted([...])` on the `(shortcutSortKey(s), s)` pairs, as an
insertion sort by the pair order. -/
def sortPairs : List (String × String) → List (String × String)
  | [] => []
  | x :: xs => insertSorted x (sortPairs xs)

/-- Embedding of the table-building loop of `print_mapping_changes`.
The printing side and the `action2key` accumulator (which do not affect
the rows) are dropped; the `idefns` parameter is kept because the
source function takes it — and never reads it.  Each `formatAction`
call advances the global `link_id` counter, threaded here as the second
component; a row removed by the `deleted` filter still advances it,
a row skipped by the diff filter does not, exactly as in the source. -/
def print_mapping_changes (cfg : CmdArgs) (lid0 : Nat)
    (defns idefns : List (String × String))
    (added removed changed : String → Bool) :
    List (String × String × String × String × String) × Nat :=
  let sorted := sortPairs ((dkeys defns).map fun s => (shortcutSortKey s, s))
  sorted.foldl
    (fun acc p =>
      let k := p.2
      let isremoved := removed k
      let ischanged := changed k
      let isadded := added k
      let flags := if isadded then "  A  " else if ischanged then "  C  "
                   else if isremoved then "  -  " else "     "
      if cfg.diff && (!isadded && !ischanged && !isremoved) then acc
      else
        let dv := (defns.lookup k).getD ""
        let vl := if !isremoved then
                    (formatAction cfg.links (acc.2+1) 0 dv, acc.2+1)
                  else ("     ", acc.2)
        let ol := if ischanged || isremoved then
                    ("  \t(" ++ formatAction cfg.links (vl.2+1) 0 dv ++ ")",
                     vl.2+1)
                  else ("", vl.2)
        if isremoved && !cfg.deleted then (acc.1, ol.2)
        else (acc.1 ++ [((shortcutSplit k).1, (shortcutSplit k).2, flags,
               vl.1, ol.1)], ol.2))
    ([], lid0)

/-- Embedding of `compare_maps` after the `human_repr` normalisation
(the two maps arrive keyed by the canonical trigger representation):
the three difference sets, the merged dict
`dict(list(ei.items()) + list(ef.items()))`, and the call to
`print_mapping_changes`. -/
def compare_maps (cfg : CmdArgs) (lid0 : Nat)
    (ef ei : List (String × String)) :
    List (String × String × String × String × String) × Nat :=
  print_mapping_changes cfg lid0 (mergeDict ei ef) ei
    (added_set ef ei) (removed_set ef ei) (changed_set ef ei)

/-- C1 (code evidence): with the single binding `ctrl+a` moved from
default action `next_tab` to current action `previous_tab`, the differ
emits exactly one row, flagged `  C  `, with the current action in the
action column and the trigger in neither the added nor the removed
rows — but the trailing parenthetical column shows the current action
`previous_tab`, not the previous action `next_tab`:
`print_mapping_changes` never reads its `idefns` parameter and renders
`defns[k]` in both columns.  The removed-trigger behaviour matches the
claim: flag `  -  `, blank action column, previous action in the
parenthetical column. -/
theorem C1_changed_row_shows_current_action :
    ((compare_maps { links := false } 0
        [("ctrl+a", "previous_tab")] [("ctrl+a", "next_tab")]).1 =
      [("ctrl+", "a", "  C  ", "previous_tab", "  \t(previous_tab)")])
  ∧ ((compare_maps { links := false } 0
        [] [("ctrl+a", "next_tab")]).1 =
      [("ctrl+", "a", "  -  ", "     ", "  \t(next_tab)")])
  ∧ ((compare_maps { links := false } 0
        [("ctrl+a", "previous_tab")] [("ctrl+a", "next_tab")]).1 ≠
      [("ctrl+", "a", "  C  ", "previous_tab", "  \t(next_tab)")]) := by
  refine ⟨by decide, by decide, by decide⟩

/-- The `os.uname()` quintuple `(sysname, nodename, release, version,
machine)`. -/
structure Uname where
  s : String
  n : String
  r : String
  v : String
  m : String

/-- The host probes consumed by `IssueData.__init__`, each fallible
probe as an `Except` (errors stand for the exception the source
guards against: any exception for `gethostname`, `OSError` for
`ctermid` and `tcgetattr`, `RuntimeError` for `num_users`; `uname`
is unguarded, so its failure propagates out of the constructor). -/
structure SysEnv where
  uname : Except Unit Uname
  gethostname : Except Unit String
  fmt_time : String
  fmt_date : String
  ctermid : Except Unit String
  stdin_isatty : Bool
  tcgetattr_baud : Except Unit Nat
  num_users : Except Unit Int

/-- Embedding of `format_tty_name`:
`re.sub(r'^/dev/([^/]+)/([^/]+)$', r'\1\2', raw)`. -/
def format_tty_name (raw : String) : String :=
  match raw.data with
  | '/' :: 'd' :: 'e' :: 'v' :: '/' :: rest =>
      match rest.takeWhile (· != '/'), rest.dropWhile (· != '/') with
      | _ :: _, '/' :: two =>
          if two.isEmpty || two.contains '/' then raw
          else String.mk (rest.takeWhile (· != '/') ++ two)
      | _, _ => raw
  | _ => raw

/-- The fields of `IssueData` that the claims exercise (the remaining
single-letter aliases are derived from these). -/
structure IssueData where
  s : String
  n : String
  r : String
  v : String
  m : String
  hostname : String
  d : String
  t : String
  tty_name : String
  baud_rate : Nat
  num_users : Int

/-- Embedding of `IssueData.__init__`: the unguarded `os.uname()` call
may fail (propagating to the caller); every other probe failure is
absorbed with its fixed fallback. -/
def IssueData.init (env : SysEnv) : Except Unit IssueData := do
  let u ← env.uname
  let hostname := match env.gethostname with
    | .ok h => h
    | .error _ => "localhost"
  let tty := match env.ctermid with
    | .ok raw => format_tty_name raw
    | .error _ => "(none)"
  let baud := if env.stdin_isatty then
      (match env.tcgetattr_baud with
       | .ok b => b
       | .error _ => 0)
    else 0
  let nu := match env.num_users with
    | .ok x => x
    | .error _ => -1
  pure { s := u.s, n := u.n, r := u.r, v := u.v, m := u.m,
         hostname := hostname, d := env.fmt_time, t := env.fmt_date,
         tty_name := tty, baud_rate := baud, num_users := nu }

/-- Embedding of `translate_issue_char` for the single-letter
attributes the constructor defines; any other character is passed
through (the `AttributeError` branch). -/
def IssueData.translate_issue_char (d : IssueData) (c : Char) : String :=
  match c with
  | 's' => d.s
  | 'n' => d.n
  | 'r' => d.r
  | 'v' => d.v
  | 'm' => d.m
  | 'o' => d.hostname
  | 'd' => d.d
  | 't' => d.t
  | 'l' => d.tty_name
  | 'b' => toString d.baud_rate
  | 'u' => toString d.num_users
  | 'U' => toString d.num_users ++ " user" ++
      (if d.num_users == 1 then "" else "s")
  | _ => String.singleton c

/-- Embedding of `parse_issue_file`: the one-character-lookbehind loop
with `last_char` as explicit state. -/
def IssueData.parse_issue_file (d : IssueData) :
    Option Char → List Char → List Char
  | last, [] =>
      match last with
      | some c => [c]
      | none => []
  | last, c :: rest =>
      if last == some '\\' then
        (d.translate_issue_char c).data ++ parse_issue_file d none rest
      else
        (match last with
         | some lc => [lc]
         | none => []) ++ parse_issue_file d (some c) rest

/-- The filesystem facts the info section of `debug_config` consults:
existence of the two banner files, and the outcome of opening/reading
each (an `.error` is an `OSError` raised by `open` or `read`). -/
structure FsEnv where
  issue_exists : Bool
  issue_open : Except Unit String
  lsb_exists : Bool
  lsb_open : Except Unit String

/-- Embedding of the `/etc/issue` and `/etc/lsb-release` banner part of
the info section of `debug_config`.  A failing `IssueData()` is caught
(`except Exception: pass`) and skips the issue banner; the `open` and
`read` calls themselves are not guarded, so their failure propagates as
a failure of the whole report. -/
def info_issue_section (env : SysEnv) (fs : FsEnv) :
    Except Unit (List String) := do
  let first ←
    if fs.issue_exists then
      match IssueData.init env with
      | .error _ => pure []
      | .ok idata => do
          let content ← fs.issue_open
          pure [String.mk (idata.parse_issue_file none content.data)]
    else pure ([] : List String)
  let second ←
    if fs.lsb_exists then do
      let content ← fs.lsb_open
      pure [content.trim]
    else pure ([] : List String)
  pure (first ++ second)

theorem IssueData.init_ok (env : SysEnv) (u : Uname)
    (hu : env.uname = .ok u) :
    IssueData.init env = .ok
      { s := u.s, n := u.n, r := u.r, v := u.v, m := u.m,
        hostname := match env.gethostname with
          | .ok h => h
          | .error _ => "localhost",
        d := env.fmt_time, t := env.fmt_date,
        tty_name := match env.ctermid with
          | .ok raw => format_tty_name raw
          | .error _ => "(none)",
        baud_rate := if env.stdin_isatty then
            (match env.tcgetattr_baud with
             | .ok b => b
             | .error _ => 0)
          else 0,
        num_users := match env.num_users with
          | .ok x => x
          | .error _ => -1 } := by
  simp [IssueData.init, hu]

theorem IssueData.init_err (env : SysEnv) (hu : env.uname = .error ()) :
    IssueData.init env = .error () := by
  simp [IssueData.init, hu]

/-- C9 counterexample: an existing `/etc/issue` whose `open` raises (an
unreadable file) fails the whole info section — the banner is not
"omitted without the report failing", because the `open` call sits
outside every `try` block in `debug_config`. -/
theorem C9_unreadable_issue_fails :
    info_issue_section
      { uname := .ok { s := "Linux", n := "host", r := "6", v := "1", m := "x86" }
        gethostname := .ok "host"
        fmt_time := ""
        fmt_date := ""
        ctermid := .ok "/dev/tty1"
        stdin_isatty := false
        tcgetattr_baud := .error ()
        num_users := .ok 1 }
      { issue_exists := true
        issue_open := .error ()
        lsb_exists := false
        lsb_open := .error () } = .error () := by
  rfl

/-- C9 (amended): the probe fallbacks hold — a failing hostname lookup
yields `localhost`, unavailable TTY attributes yield baud rate `0`, a
failing logged-in-user count yields `-1`, a failing `ctermid` yields
`(none)` — and a nonexistent `/etc/issue` or `/etc/lsb-release`, or a
failure while constructing `IssueData`, omits the banner without
failing the report.  (An existing banner file whose `open`/`read`
raises is not guarded and propagates, per `C9_unreadable_issue_fails`.) -/
theorem C9_probe_fallbacks_amended (env : SysEnv) (fs : FsEnv) :
    (∀ u, env.uname = .ok u → env.gethostname = .error () →
       ∃ d, IssueData.init env = .ok d ∧ d.hostname = "localhost")
  ∧ (∀ u, env.uname = .ok u → env.tcgetattr_baud = .error () →
       ∃ d, IssueData.init env = .ok d ∧ d.baud_rate = 0)
  ∧ (∀ u, env.uname = .ok u → env.num_users = .error () →
       ∃ d, IssueData.init env = .ok d ∧ d.num_users = -1)
  ∧ (∀ u, env.uname = .ok u → env.ctermid = .error () →
       ∃ d, IssueData.init env = .ok d ∧ d.tty_name = "(none)")
  ∧ (fs.issue_exists = false → fs.lsb_exists = false →
       info_issue_section env fs = .ok [])
  ∧ (fs.issue_exists = true → env.uname = .error () →
       fs.lsb_exists = false → info_issue_section env fs = .ok []) := by
  refine ⟨?_, ?_, ?_, ?_, ?_, ?_⟩
  · intro u hu hh
    exact ⟨_, IssueData.init_ok env u hu, by simp [hh]⟩
  · intro u hu hb
    refine ⟨_, IssueData.init_ok env u hu, ?_⟩
    show (if env.stdin_isatty then _ else 0) = 0
    rw [hb]
    cases env.stdin_isatty <;> rfl
  · intro u hu hn
    exact ⟨_, IssueData.init_ok env u hu, by simp [hn]⟩
  · intro u hu hc
    exact ⟨_, IssueData.init_ok env u hu, by simp [hc]⟩
  · intro h1 h2
    simp [info_issue_section, h1, h2]
    rfl
  · intro h1 h2 h3
    simp [info_issue_section, h1, h3, IssueData.init_err env h2]
    rfl

theorem C9_probe_fallbacks_witness :
    (∃ d, IssueData.init
        { uname := .ok { s := "L", n := "h", r := "6", v := "1", m := "x" }
          gethostname := .error ()
          fmt_time := ""
          fmt_date := ""
          ctermid := .error ()
          stdin_isatty := true
          tcgetattr_baud := .error ()
          num_users := .error () } = .ok d ∧
        d.hostname = "localhost")
  ∧ (info_issue_section
      { uname := .ok { s := "L", n := "h", r := "6", v := "1", m := "x" }
        gethostname := .error ()
        fmt_time := ""
        fmt_date := ""
        ctermid := .error ()
        stdin_isatty := true
        tcgetattr_baud := .error ()
        num_users := .error () }
      { issue_exists := false
        issue_open := .error ()
        lsb_exists := false
        lsb_open := .error () } = .ok []) :=
  ⟨(C9_probe_fallbacks_amended _
      { issue_exists := false
        issue_open := .error ()
        lsb_exists := false
        lsb_open := .error () }).1 _ rfl rfl,
   (C9_probe_fallbacks_amended _
      { issue_exists := false
        issue_open := .error ()
        lsb_exists := false
        lsb_open := .error () }).2.2.2.2.1 rfl rfl⟩
